import Mathlib

/-!
# Formal model of the pixel-forge 2D sprite batching render pipeline

A shallow embedding of `packages/pixel-forge/src/renderer/pipeline/2d-pixel/pipeline.ts`
(the version with rotation, source-frame UVs and per-sprite color/alpha,
lines 284–661 of the concatenated file; the claim line numbers refer to it).

Modelling conventions:
* a `GPUTexture` is represented by its pixel dimensions plus an identity tag,
  because the source keys its maps on `GPUTexture` object identity;
* the JS `Map` is an insertion-ordered association list: `Map.get` finds the
  first entry with the key, `Map.set` updates an existing entry in place
  (keeping its insertion position) and appends a new key at the end;
* a batch's flat `Float32Array` is represented by the ordered list of sprites
  written into it — the source writes a sprite's 32 floats at slot
  `batch.instances` and then increments `batch.instances`, so slot `k` holds
  exactly the data of the `k`-th sprite appended (`spriteVertices` below gives
  the 32 floats of one slot);
* GPU buffers and bind groups carry no data relevant to the claims, so the
  vertex-buffer pool is tracked by its size together with the running count of
  buffers ever allocated, and a texture bind group is represented by the
  texture it binds;
* numbers are real numbers (texture pixel dimensions are rationals so that
  texture identity stays decidable); single-precision rounding is idealized.
-/

/-- Pixel dimensions of a GPU texture together with an identity tag: the source
keys `batchMap` and `textureBindGroups` on `GPUTexture` object identity, which
the tag models (`width`/`height` are the `sprite.texture.width/height` reads). -/
structure Texture where
  id : ℕ
  width : ℚ
  height : ℚ
deriving DecidableEq

/-- The sprite's source frame rectangle (`sprite.frame`), a pixel-space
sub-rectangle of the texture used for atlas sampling. -/
structure Frame where
  x : ℝ
  y : ℝ
  width : ℝ
  height : ℝ

/-- `type Vec2 = [number, number]` from `math/vec2`. -/
abbrev Vec2 : Type := ℝ × ℝ

/-- A sprite record, with exactly the fields the pipeline reads:
`texture`, `x`, `y`, `width`, `height`, `rotation`, `origin`, `frame`,
`color` (r, g, b) and `alpha`. -/
structure Sprite where
  texture : Texture
  x : ℝ
  y : ℝ
  width : ℝ
  height : ℝ
  rotation : ℝ
  origin : Vec2
  frame : Frame
  color : ℝ × ℝ × ℝ
  alpha : ℝ

/-- Source type `Batch`: a batch of sprites sharing one texture.  The flat
`vertices : Float32Array` is represented by the ordered list of sprites written
into it (see the module docstring). -/
structure Batch where
  instances : ℕ
  sprites : List Sprite
  texture : Texture

/-- `const MAX_SPRITES_PER_BATCH = 10_000`. -/
def MAX_SPRITES_PER_BATCH : ℕ := 10000

/-- Modelled from the spec: `rotate` is imported from `math/vec2`, whose source
file is not part of this snapshot.  The spec states "rotation uses standard 2D
rotation matrix around the pivot": rotate `p` by `angle` radians about `o`. -/
noncomputable def rotate (p o : Vec2) (angle : ℝ) : Vec2 :=
  (o.1 + (p.1 - o.1) * Real.cos angle - (p.2 - o.2) * Real.sin angle,
   o.2 + (p.1 - o.1) * Real.sin angle + (p.2 - o.2) * Real.cos angle)

/-- The four corner positions of a sprite's quad, named as in the source. -/
structure Corners where
  topLeft : Vec2
  topRight : Vec2
  bottomRight : Vec2
  bottomLeft : Vec2

/-- Lines 537–555: the unrotated axis-aligned corners, rotated about the pivot
`(x + origin[0] * width, y + origin[1] * height)` when `sprite.rotation` is
truthy (i.e. non-zero; `if (sprite.rotation)` in JS). -/
noncomputable def spriteCorners (s : Sprite) : Corners :=
  let topLeft : Vec2 := (s.x, s.y)
  let topRight : Vec2 := (s.x + s.width, s.y)
  let bottomRight : Vec2 := (s.x + s.width, s.y + s.height)
  let bottomLeft : Vec2 := (s.x, s.y + s.height)
  if s.rotation = 0 then
    { topLeft := topLeft, topRight := topRight,
      bottomRight := bottomRight, bottomLeft := bottomLeft }
  else
    let origin : Vec2 :=
      (s.x + s.origin.1 * s.width, s.y + s.origin.2 * s.height)
    { topLeft := rotate topLeft origin s.rotation,
      topRight := rotate topRight origin s.rotation,
      bottomRight := rotate bottomRight origin s.rotation,
      bottomLeft := rotate bottomLeft origin s.rotation }

/-- Lines 557–560: `u = [frame.x / texture.width, (frame.x + frame.width) / texture.width]`. -/
noncomputable def spriteU (s : Sprite) : Vec2 :=
  (s.frame.x / (s.texture.width : ℝ),
   (s.frame.x + s.frame.width) / (s.texture.width : ℝ))

/-- Lines 561–564: `v = [frame.y / texture.height, (frame.y + frame.height) / texture.height]`. -/
noncomputable def spriteV (s : Sprite) : Vec2 :=
  (s.frame.y / (s.texture.height : ℝ),
   (s.frame.y + s.frame.height) / (s.texture.height : ℝ))

/-- Lines 566–605: the 32 floats written for one sprite slot, in write order —
four vertices (top left, top right, bottom right, bottom left), each
`x, y, u, v, r, g, b, a`. -/
noncomputable def spriteVertices (s : Sprite) : List ℝ :=
  let c := spriteCorners s
  let u := spriteU s
  let v := spriteV s
  [c.topLeft.1, c.topLeft.2, u.1, v.1,
     s.color.1, s.color.2.1, s.color.2.2, s.alpha,
   c.topRight.1, c.topRight.2, u.2, v.1,
     s.color.1, s.color.2.1, s.color.2.2, s.alpha,
   c.bottomRight.1, c.bottomRight.2, u.2, v.2,
     s.color.1, s.color.2.1, s.color.2.2, s.alpha,
   c.bottomLeft.1, c.bottomLeft.2, u.1, v.2,
     s.color.1, s.color.2.1, s.color.2.2, s.alpha]

/-- `batchMap.get(texture)`: find the entry of the insertion-ordered map. -/
def getTexture : List (Texture × List Batch) → Texture → Option (List Batch)
  | [], _ => none
  | p :: m, t => if p.1 = t then some p.2 else getTexture m t

/-- `batchMap.set(texture, batches)`: JS `Map.set` updates an existing key in
place, keeping its insertion position, and appends a new key at the end. -/
def setTexture : List (Texture × List Batch) → Texture → List Batch →
    List (Texture × List Batch)
  | [], t, bs => [(t, bs)]
  | p :: m, t, bs => if p.1 = t then (t, bs) :: m else p :: setTexture m t bs

/-- Writing one sprite into a batch: the 32 floats go to slot `batch.instances`
(lines 566–605) and then `batch.instances++` (line 607). -/
def writeSprite (b : Batch) (s : Sprite) : Batch :=
  { instances := b.instances + 1, sprites := b.sprites ++ [s], texture := b.texture }

/-- Lines 528–534: a freshly created empty batch for the sprite's texture. -/
def newBatch (s : Sprite) : Batch :=
  { instances := 0, sprites := [], texture := s.texture }

/-- Lines 527–535 plus the vertex write: take the last batch of the texture's
list (`batches.at(-1)`); if there is none or it holds exactly
`MAX_SPRITES_PER_BATCH` instances, push a fresh batch; then write the sprite
into that batch. -/
def appendSprite (batches : List Batch) (s : Sprite) : List Batch :=
  match batches.getLast? with
  | none => batches ++ [writeSprite (newBatch s) s]
  | some b =>
    if b.instances = MAX_SPRITES_PER_BATCH then
      batches ++ [writeSprite (newBatch s) s]
    else
      batches.dropLast ++ [writeSprite b s]

/-- Lines 503–519: look the texture up in `textureBindGroups` and lazily create
and cache its bind group on a miss.  A bind group is represented by the texture
it binds, so the cache is the insertion-ordered list of registered textures. -/
def registerTexture (cache : List Texture) (t : Texture) : List Texture :=
  if t ∈ cache then cache else cache ++ [t]

/-- Lines 521–535: the batch-map update of one iteration of the batching loop
(`batchMap.get`, `set` to `[]` on a miss, then push/write into the last batch). -/
def addSprite (m : List (Texture × List Batch)) (s : Sprite) :
    List (Texture × List Batch) :=
  setTexture m s.texture (appendSprite ((getTexture m s.texture).getD []) s)

/-- One iteration of the batching loop body (lines 500–608): bind-group
registration for the sprite's texture followed by the batch-map update. -/
def processSprite : List Texture × List (Texture × List Batch) → Sprite →
    List Texture × List (Texture × List Batch)
  | (cache, m), s => (registerTexture cache s.texture, addSprite m s)

/-- The whole batching loop (lines 497–608), starting from the persistent
bind-group cache and a fresh `batchMap = new Map()`. -/
def batchLoop (cache : List Texture) (sprites : List Sprite) :
    List Texture × List (Texture × List Batch) :=
  sprites.foldl processSprite (cache, [])

/-- The bind-group cache after the batching loop (the first component of
`batchLoop`, see `batchLoop_eq`). -/
def registerSprites (cache : List Texture) (sprites : List Sprite) : List Texture :=
  sprites.foldl (fun c s => registerTexture c s.texture) cache

/-- The batch map after the batching loop (the second component of `batchLoop`,
see `batchLoop_eq`). -/
def buildBatchMap (sprites : List Sprite) : List (Texture × List Batch) :=
  sprites.foldl addSprite []

/-- The draw-loop iteration order (lines 628–629): all batches of the map,
grouped per texture in map insertion order. -/
def renderBatches (sprites : List Sprite) : List Batch :=
  ((buildBatchMap sprites).map Prod.snd).flatten

/-- One recorded indexed draw call (line 649, `drawIndexed(6 * batch.instances)`)
together with the texture bind group bound for it (line 648). -/
structure DrawCall where
  indexCount : ℕ
  texture : Texture
deriving DecidableEq

/-- Lines 639–649: look up the batch texture's bind group — `throw new
Error('Texture bind group not found!')` on a miss — and record the draw call. -/
def drawBatch (cache : List Texture) (b : Batch) : Except String DrawCall :=
  if b.texture ∈ cache then
    Except.ok { indexCount := 6 * b.instances, texture := b.texture }
  else
    Except.error "Texture bind group not found!"

/-- The draw loop (lines 628–651): one draw call per batch in iteration order,
aborting with the thrown error if a bind group is missing. -/
def drawLoop (cache : List Texture) : List Batch → Except String (List DrawCall)
  | [] => Except.ok []
  | b :: bs =>
    match drawBatch cache b with
    | Except.error e => Except.error e
    | Except.ok c =>
      match drawLoop cache bs with
      | Except.error e => Except.error e
      | Except.ok cs => Except.ok (c :: cs)

/-- The vertex-buffer bookkeeping of one draw-loop iteration: pool size,
`usedVertexBuffers.length`, and the running count of buffers ever allocated
with `vertexBufferAlloc`. -/
structure DrawState where
  pool : ℕ
  used : ℕ
  allocated : ℕ
deriving DecidableEq

/-- Lines 630–637: `vertexBuffers.pop()`, allocating a fresh buffer only when
the pool is empty, then `usedVertexBuffers.push(vertexBuffer)`. -/
def acquireBuffer (d : DrawState) : DrawState :=
  if d.pool = 0 then
    { pool := 0, used := d.used + 1, allocated := d.allocated + 1 }
  else
    { pool := d.pool - 1, used := d.used + 1, allocated := d.allocated }

/-- The persistent closure state of `pipeline`: the vertex-buffer pool size
(`vertexBuffers.length`), the count of vertex buffers ever allocated
(instrumentation for the pool claims), and the `textureBindGroups` cache keys
in insertion order. -/
structure PipelineState where
  vertexBuffers : ℕ
  buffersAllocated : ℕ
  textureBindGroups : List Texture
deriving DecidableEq

/-- Lines 489–495: at construction the pool holds one pre-allocated buffer and
the bind-group cache is empty. -/
def initState : PipelineState :=
  { vertexBuffers := 1, buffersAllocated := 1, textureBindGroups := [] }

/-- One render-pass invocation (`render(sprites)`), as its effect on the
persistent state: the batching loop updates the bind-group cache; the draw loop
acquires one vertex buffer per batch (lines 630–637; the bind-group lookup
never throws, see `bind_group_lookup_total`); lines 657–659 push every used
buffer back into the pool. -/
def renderFrame (st : PipelineState) (sprites : List Sprite) : PipelineState :=
  let r := batchLoop st.textureBindGroups sprites
  let batches := (r.2.map Prod.snd).flatten
  let d := batches.foldl (fun d _ => acquireBuffer d)
    { pool := st.vertexBuffers, used := 0, allocated := st.buffersAllocated }
  { vertexBuffers := d.pool + d.used,
    buffersAllocated := d.allocated,
    textureBindGroups := r.1 }

/-- `n` consecutive frames rendering the same sprite list, from construction. -/
def runFrames (sprites : List Sprite) : ℕ → PipelineState
  | 0 => initState
  | n + 1 => renderFrame (runFrames sprites n) sprites

/-- The distinct textures of a sprite list in first-encounter order. -/
def distinctTextures (sprites : List Sprite) : List Texture :=
  sprites.foldl (fun acc s => if s.texture ∈ acc then acc else acc ++ [s.texture]) []

/-- The number of sprites of the list using the given texture. -/
def textureCount (sprites : List Sprite) (t : Texture) : ℕ :=
  (sprites.filter (fun s => decide (s.texture = t))).length

/-- `ceil (n / m)` on naturals (for `m > 0`). -/
def ceilDiv (n m : ℕ) : ℕ := (n + m - 1) / m

/-- The number of batches built for the given texture. -/
def numBatches (sprites : List Sprite) (t : Texture) : ℕ :=
  ((getTexture (buildBatchMap sprites) t).getD []).length

/-- Shape invariant of a single batch of texture `t`: it records its texture,
`instances` counts the sprites written (slot-by-slot write order), every batch
holds at least one sprite, and never more than `MAX_SPRITES_PER_BATCH`. -/
def batchWF (t : Texture) (b : Batch) : Prop :=
  b.texture = t ∧ b.instances = b.sprites.length ∧
    1 ≤ b.instances ∧ b.instances ≤ MAX_SPRITES_PER_BATCH

/-- Shape invariant of the batch list of one texture after processing
`processed`: non-empty, every batch well-formed, every batch but the last
exactly full, and the concatenated contents are exactly the sprites of that
texture in input order. -/
def groupOk (processed : List Sprite) (t : Texture) (bs : List Batch) : Prop :=
  bs ≠ [] ∧
  (∀ b ∈ bs, batchWF t b) ∧
  (∀ b ∈ bs.dropLast, b.instances = MAX_SPRITES_PER_BATCH) ∧
  (bs.map Batch.sprites).flatten = processed.filter (fun s => decide (s.texture = t))

/-- Invariant of the whole batch map after processing `processed`: keys are the
distinct textures in first-encounter order and every entry satisfies `groupOk`. -/
def mapInv (processed : List Sprite) (m : List (Texture × List Batch)) : Prop :=
  m.map Prod.fst = distinctTextures processed ∧
  ∀ p ∈ m, groupOk processed p.1 p.2

/-- A 16×16 test texture. -/
def texA : Texture := { id := 0, width := 16, height := 16 }

/-- A second, distinct 16×16 test texture. -/
def texB : Texture := { id := 1, width := 16, height := 16 }

/-- A plain unrotated unit sprite at `(px, py)` over the full texture frame. -/
noncomputable def mkSprite (t : Texture) (px py : ℝ) : Sprite :=
  { texture := t, x := px, y := py, width := 1, height := 1, rotation := 0,
    origin := (0, 0), frame := { x := 0, y := 0, width := 16, height := 16 },
    color := (1, 1, 1), alpha := 1 }

/-- Interleaved-texture example input: texture A, then B, then A again. -/
noncomputable def sprA1 : Sprite := mkSprite texA 0 0

/-- Interleaved-texture example input, middle sprite (texture B). -/
noncomputable def sprB : Sprite := mkSprite texB 1 0

/-- Interleaved-texture example input, last sprite (texture A again). -/
noncomputable def sprA2 : Sprite := mkSprite texA 2 0

/-- Concrete unrotated sprite for evaluating the vertex writer: position
`(1, 2)`, size `3 × 4`, full 16×16 frame. -/
noncomputable def exFlat : Sprite :=
  { texture := texA, x := 1, y := 2, width := 3, height := 4, rotation := 0,
    origin := (0, 0), frame := { x := 0, y := 0, width := 16, height := 16 },
    color := (1, 1, 1), alpha := 1 }

/-- Concrete rotated sprite: `exFlat` rotated by `π` about its center. -/
noncomputable def exRot : Sprite :=
  { texture := texA, x := 1, y := 2, width := 3, height := 4,
    rotation := Real.pi, origin := (1 / 2, 1 / 2),
    frame := { x := 0, y := 0, width := 16, height := 16 },
    color := (1, 1, 1), alpha := 1 }

/-! ## Lemmas about the insertion-ordered map operations -/

theorem getTexture_eq_none {m : List (Texture × List Batch)} {t : Texture} :
    getTexture m t = none ↔ t ∉ m.map Prod.fst := by
  induction m with
  | nil => simp [getTexture]
  | cons p m ih =>
    by_cases h : p.1 = t
    · simp [getTexture, h]
    · simp [getTexture, h, ih, Ne.symm h]

theorem getTexture_mem {m : List (Texture × List Batch)} {t : Texture}
    {bs : List Batch} (h : getTexture m t = some bs) : (t, bs) ∈ m := by
  induction m with
  | nil => simp [getTexture] at h
  | cons p m ih =>
    by_cases hp : p.1 = t
    · rw [getTexture, if_pos hp] at h
      obtain rfl : p.2 = bs := by simpa using h
      subst hp
      simp
    · rw [getTexture, if_neg hp] at h
      exact List.mem_cons_of_mem _ (ih h)

theorem setTexture_of_not_mem {m : List (Texture × List Batch)} {t : Texture}
    (bs : List Batch) (h : t ∉ m.map Prod.fst) :
    setTexture m t bs = m ++ [(t, bs)] := by
  induction m with
  | nil => simp [setTexture]
  | cons p m ih =>
    simp only [List.map_cons, List.mem_cons] at h
    push_neg at h
    rw [setTexture, if_neg (fun hp => h.1 hp.symm), ih h.2]
    simp

theorem setTexture_map_fst_of_mem {m : List (Texture × List Batch)} {t : Texture}
    (bs : List Batch) (h : t ∈ m.map Prod.fst) :
    (setTexture m t bs).map Prod.fst = m.map Prod.fst := by
  induction m with
  | nil => simp at h
  | cons p m ih =>
    by_cases hp : p.1 = t
    · rw [setTexture, if_pos hp]
      simp [hp]
    · simp only [List.map_cons, List.mem_cons] at h
      rcases h with h | h
      · exact absurd h.symm hp
      · rw [setTexture, if_neg hp]
        simp [ih h]

theorem mem_setTexture_nodup {m : List (Texture × List Batch)} {t : Texture}
    {bs : List Batch} {q : Texture × List Batch}
    (hnd : (m.map Prod.fst).Nodup) (hq : q ∈ setTexture m t bs) :
    q = (t, bs) ∨ (q ∈ m ∧ q.1 ≠ t) := by
  induction m with
  | nil =>
    simp [setTexture] at hq
    exact Or.inl hq
  | cons p m ih =>
    simp only [List.map_cons, List.nodup_cons] at hnd
    by_cases hp : p.1 = t
    · rw [setTexture, if_pos hp] at hq
      rcases List.mem_cons.mp hq with h | h
      · exact Or.inl h
      · refine Or.inr ⟨List.mem_cons_of_mem _ h, fun hqt => ?_⟩
        exact hnd.1 (hp ▸ hqt ▸ List.mem_map_of_mem Prod.fst h)
    · rw [setTexture, if_neg hp] at hq
      rcases List.mem_cons.mp hq with h | h
      · exact Or.inr ⟨h ▸ List.mem_cons_self p m, h ▸ hp⟩
      · rcases ih hnd.2 h with h' | h'
        · exact Or.inl h'
        · exact Or.inr ⟨List.mem_cons_of_mem _ h'.1, h'.2⟩

theorem getTexture_of_mem_nodup {m : List (Texture × List Batch)}
    {q : Texture × List Batch}
    (hnd : (m.map Prod.fst).Nodup) (hq : q ∈ m) :
    getTexture m q.1 = some q.2 := by
  induction m with
  | nil => simp at hq
  | cons p m ih =>
    simp only [List.map_cons, List.nodup_cons] at hnd
    rcases List.mem_cons.mp hq with h | h
    · rw [h, getTexture, if_pos rfl]
    · have hp : p.1 ≠ q.1 := by
        intro hpq
        exact hnd.1 (hpq ▸ List.mem_map_of_mem Prod.fst h)
      rw [getTexture, if_neg hp]
      exact ih hnd.2 h

/-! ## Lemmas about texture registration and first-encounter order -/

theorem distinctTextures_eq_registerSprites (sprites : List Sprite) :
    distinctTextures sprites = registerSprites [] sprites := rfl

theorem registerSprites_append (cache : List Texture) (l₁ l₂ : List Sprite) :
    registerSprites cache (l₁ ++ l₂) = registerSprites (registerSprites cache l₁) l₂ := by
  unfold registerSprites
  exact List.foldl_append _ _ _ _

theorem distinctTextures_concat (l : List Sprite) (s : Sprite) :
    distinctTextures (l ++ [s]) =
      if s.texture ∈ distinctTextures l then distinctTextures l
      else distinctTextures l ++ [s.texture] := by
  rw [distinctTextures_eq_registerSprites, registerSprites_append]
  rfl

theorem mem_registerTexture {cache : List Texture} {u t : Texture} :
    t ∈ registerTexture cache u ↔ t ∈ cache ∨ t = u := by
  unfold registerTexture
  by_cases hu : u ∈ cache
  · rw [if_pos hu]
    constructor
    · exact Or.inl
    · rintro (h | rfl)
      · exact h
      · exact hu
  · rw [if_neg hu]
    simp

theorem mem_registerSprites {cache : List Texture} {l : List Sprite} {t : Texture} :
    t ∈ registerSprites cache l ↔ t ∈ cache ∨ ∃ s ∈ l, s.texture = t := by
  induction l generalizing cache with
  | nil => simp [registerSprites]
  | cons s l ih =>
    have hstep : registerSprites cache (s :: l) =
        registerSprites (registerTexture cache s.texture) l := rfl
    rw [hstep, ih, mem_registerTexture]
    constructor
    · rintro ((h | rfl) | h)
      · exact Or.inl h
      · exact Or.inr ⟨s, List.mem_cons_self s l, rfl⟩
      · obtain ⟨x, hx, hxt⟩ := h
        exact Or.inr ⟨x, List.mem_cons_of_mem s hx, hxt⟩
    · rintro (h | ⟨x, hx, hxt⟩)
      · exact Or.inl (Or.inl h)
      · rcases List.mem_cons.mp hx with rfl | hx
        · exact Or.inl (Or.inr hxt.symm)
        · exact Or.inr ⟨x, hx, hxt⟩

theorem mem_distinctTextures {l : List Sprite} {t : Texture} :
    t ∈ distinctTextures l ↔ ∃ s ∈ l, s.texture = t := by
  rw [distinctTextures_eq_registerSprites, mem_registerSprites]
  simp

theorem registerSprites_isAppend (cache : List Texture) (l : List Sprite) :
    ∃ ts, registerSprites cache l = cache ++ ts := by
  induction l generalizing cache with
  | nil => exact ⟨[], by simp [registerSprites]⟩
  | cons s l ih =>
    obtain ⟨ts, hts⟩ := ih (registerTexture cache s.texture)
    have hstep : registerSprites cache (s :: l) =
        registerSprites (registerTexture cache s.texture) l := rfl
    by_cases hs : s.texture ∈ cache
    · refine ⟨ts, ?_⟩
      rw [hstep, hts, registerTexture, if_pos hs]
    · refine ⟨s.texture :: ts, ?_⟩
      rw [hstep, hts, registerTexture, if_neg hs]
      simp

theorem nodup_registerSprites {cache : List Texture} (l : List Sprite)
    (h : cache.Nodup) : (registerSprites cache l).Nodup := by
  induction l generalizing cache with
  | nil => exact h
  | cons s l ih =>
    have hstep : registerSprites cache (s :: l) =
        registerSprites (registerTexture cache s.texture) l := rfl
    rw [hstep]
    refine ih ?_
    unfold registerTexture
    by_cases hs : s.texture ∈ cache
    · rwa [if_pos hs]
    · rw [if_neg hs]
      simpa [List.nodup_append] using ⟨h, hs⟩

theorem nodup_distinctTextures (l : List Sprite) : (distinctTextures l).Nodup := by
  rw [distinctTextures_eq_registerSprites]
  exact nodup_registerSprites l List.nodup_nil

theorem batchLoop_fold (sprites : List Sprite) (cache : List Texture)
    (m : List (Texture × List Batch)) :
    sprites.foldl processSprite (cache, m) =
      (sprites.foldl (fun c s => registerTexture c s.texture) cache,
       sprites.foldl addSprite m) := by
  induction sprites generalizing cache m with
  | nil => rfl
  | cons s l ih => exact ih (registerTexture cache s.texture) (addSprite m s)

theorem batchLoop_eq (cache : List Texture) (sprites : List Sprite) :
    batchLoop cache sprites = (registerSprites cache sprites, buildBatchMap sprites) :=
  batchLoop_fold sprites cache []

/-! ## Preservation of the batching invariant -/

theorem max_sprites_pos : 1 ≤ MAX_SPRITES_PER_BATCH := by
  norm_num [MAX_SPRITES_PER_BATCH]

theorem batchWF_new {t : Texture} {s : Sprite} (hs : s.texture = t) :
    batchWF t (writeSprite (newBatch s) s) := by
  refine ⟨hs, ?_, ?_, ?_⟩
  · simp [writeSprite, newBatch]
  · simp [writeSprite, newBatch]
  · simp [writeSprite, newBatch, MAX_SPRITES_PER_BATCH]

theorem groupOk_new {l : List Sprite} {s : Sprite}
    (h : ∀ x ∈ l, x.texture ≠ s.texture) :
    groupOk (l ++ [s]) s.texture (appendSprite [] s) := by
  have hfilter : l.filter (fun x => decide (x.texture = s.texture)) = [] := by
    rw [List.filter_eq_nil_iff]
    intro x hx
    simp [h x hx]
  refine ⟨by simp [appendSprite], ?_, ?_, ?_⟩
  · intro b hb
    obtain rfl : b = writeSprite (newBatch s) s := by
      simpa [appendSprite] using hb
    exact batchWF_new rfl
  · intro b hb
    simp [appendSprite] at hb
  · rw [List.filter_append, hfilter]
    simp [appendSprite, writeSprite, newBatch]

theorem groupOk_other {l : List Sprite} {t : Texture} {bs : List Batch}
    {s : Sprite} (hg : groupOk l t bs) (hst : s.texture ≠ t) :
    groupOk (l ++ [s]) t bs := by
  obtain ⟨hne, hwf, hfull, hflat⟩ := hg
  refine ⟨hne, hwf, hfull, ?_⟩
  rw [List.filter_append]
  have : ([s].filter (fun x => decide (x.texture = t))) = [] := by simp [hst]
  rw [this, List.append_nil]
  exact hflat

theorem groupOk_push {l : List Sprite} {t : Texture} {bs : List Batch}
    {s : Sprite} (hg : groupOk l t bs) (hs : s.texture = t) :
    groupOk (l ++ [s]) t (appendSprite bs s) := by
  obtain ⟨hne, hwf, hfull, hflat⟩ := hg
  have hlast : bs.getLast? = some (bs.getLast hne) := List.getLast?_eq_getLast bs hne
  have hbmem : bs.getLast hne ∈ bs := List.getLast_mem hne
  have hbs : bs.dropLast ++ [bs.getLast hne] = bs := List.dropLast_append_getLast hne
  have hfilter : (l ++ [s]).filter (fun x => decide (x.texture = t)) =
      l.filter (fun x => decide (x.texture = t)) ++ [s] := by
    rw [List.filter_append]
    simp [hs]
  have hred : appendSprite bs s =
      if (bs.getLast hne).instances = MAX_SPRITES_PER_BATCH then
        bs ++ [writeSprite (newBatch s) s]
      else bs.dropLast ++ [writeSprite (bs.getLast hne) s] := by
    rw [appendSprite, hlast]
  rw [hred]
  by_cases hfullb : (bs.getLast hne).instances = MAX_SPRITES_PER_BATCH
  · rw [if_pos hfullb]
    refine ⟨by simp, ?_, ?_, ?_⟩
    · intro b hb
      rcases List.mem_append.mp hb with h | h
      · exact hwf b h
      · obtain rfl : b = writeSprite (newBatch s) s := by simpa using h
        exact batchWF_new hs
    · intro b hb
      rw [List.dropLast_concat] at hb
      rw [← hbs] at hb
      rcases List.mem_append.mp hb with h | h
      · exact hfull b h
      · obtain rfl : b = bs.getLast hne := by simpa using h
        exact hfullb
    · rw [List.map_append, List.flatten_append, hflat, hfilter]
      simp [writeSprite, newBatch]
  · rw [if_neg hfullb]
    have hwfb := hwf _ hbmem
    refine ⟨by simp, ?_, ?_, ?_⟩
    · intro b hb
      rcases List.mem_append.mp hb with h | h
      · exact hwf b ((List.dropLast_sublist bs).subset h)
      · obtain rfl : b = writeSprite (bs.getLast hne) s := by simpa using h
        refine ⟨hwfb.1, ?_, ?_, ?_⟩
        · simp [writeSprite, hwfb.2.1]
        · simp [writeSprite]
        · have h1 := hwfb.2.2.2
          simp only [writeSprite]
          omega
    · intro b hb
      rw [List.dropLast_concat] at hb
      exact hfull b hb
    · rw [← hbs, List.map_append, List.flatten_append] at hflat
      rw [List.map_append, List.flatten_append, hfilter, ← hflat]
      simp [writeSprite]

theorem addSprite_of_getTexture_some {m : List (Texture × List Batch)}
    {s : Sprite} {bs : List Batch} (h : getTexture m s.texture = some bs) :
    addSprite m s = setTexture m s.texture (appendSprite bs s) := by
  rw [addSprite, h]
  rfl

theorem mapInv_step {l : List Sprite} {m : List (Texture × List Batch)}
    {s : Sprite} (h : mapInv l m) : mapInv (l ++ [s]) (addSprite m s) := by
  obtain ⟨hkeys, hgroups⟩ := h
  have hnd : (m.map Prod.fst).Nodup := by
    rw [hkeys]; exact nodup_distinctTextures l
  by_cases hmem : s.texture ∈ m.map Prod.fst
  · have hnone : getTexture m s.texture ≠ none :=
      fun hn => (getTexture_eq_none.mp hn) hmem
    obtain ⟨bs, hbs⟩ := Option.ne_none_iff_exists'.mp hnone
    have hentry : (s.texture, bs) ∈ m := getTexture_mem hbs
    have hgOld : groupOk l s.texture bs := hgroups _ hentry
    rw [addSprite_of_getTexture_some hbs]
    constructor
    · rw [setTexture_map_fst_of_mem _ hmem, hkeys, distinctTextures_concat,
        if_pos (hkeys ▸ hmem)]
    · intro q hq
      rcases mem_setTexture_nodup hnd hq with rfl | ⟨hqm, hqt⟩
      · exact groupOk_push hgOld rfl
      · exact groupOk_other (hgroups q hqm) (Ne.symm hqt)
  · have hbs : getTexture m s.texture = none := getTexture_eq_none.mpr hmem
    have hstep : addSprite m s = m ++ [(s.texture, appendSprite [] s)] := by
      rw [addSprite, hbs]
      exact setTexture_of_not_mem _ hmem
    rw [hstep]
    constructor
    · rw [List.map_append, hkeys, distinctTextures_concat,
        if_neg (hkeys ▸ hmem)]
      rfl
    · intro q hq
      rcases List.mem_append.mp hq with hqm | hqnew
      · have hqt : q.1 ≠ s.texture := by
          intro hq1
          exact hmem (hq1 ▸ List.mem_map_of_mem Prod.fst hqm)
        exact groupOk_other (hgroups q hqm) (Ne.symm hqt)
      · obtain rfl : q = (s.texture, appendSprite [] s) := by simpa using hqnew
        refine groupOk_new ?_
        intro x hx hxt
        exact hmem (hkeys ▸ mem_distinctTextures.mpr ⟨x, hx, hxt⟩)

theorem buildBatchMap_inv (sprites : List Sprite) :
    mapInv sprites (buildBatchMap sprites) := by
  induction sprites using List.reverseRecOn with
  | nil => exact ⟨rfl, by simp [buildBatchMap]⟩
  | append_singleton l s ih =>
    have hstep : buildBatchMap (l ++ [s]) = addSprite (buildBatchMap l) s := by
      unfold buildBatchMap
      rw [List.foldl_append]
      rfl
    rw [hstep]
    exact mapInv_step ih

/-! ## Batch counts and the draw loop -/

theorem sum_eq_length_mul {l : List ℕ} {c : ℕ} (h : ∀ x ∈ l, x = c) :
    l.sum = l.length * c := by
  induction l with
  | nil => simp
  | cons a l ih =>
    rw [List.sum_cons, List.length_cons,
      ih (fun x hx => h x (List.mem_cons_of_mem a hx)), h a (List.mem_cons_self a l)]
    ring

theorem groupOk_length {processed : List Sprite} {t : Texture} {bs : List Batch}
    (hg : groupOk processed t bs) :
    bs.length = ceilDiv (textureCount processed t) MAX_SPRITES_PER_BATCH := by
  obtain ⟨hne, hwf, hfull, hflat⟩ := hg
  have hcount : textureCount processed t = (bs.map Batch.instances).sum := by
    rw [textureCount, ← hflat, List.length_flatten, List.map_map]
    congr 1
    refine List.map_congr_left ?_
    intro b hb
    exact ((hwf b hb).2.1).symm
  have hbs : bs.dropLast ++ [bs.getLast hne] = bs := List.dropLast_append_getLast hne
  have hsum : (bs.map Batch.instances).sum =
      bs.dropLast.length * MAX_SPRITES_PER_BATCH + (bs.getLast hne).instances := by
    conv_lhs => rw [← hbs]
    rw [List.map_append, List.sum_append]
    congr 1
    refine sum_eq_length_mul ?_ |>.trans (by rw [List.length_map])
    intro x hx
    obtain ⟨b, hb, rfl⟩ := List.mem_map.mp hx
    exact hfull b hb
  have hlen : bs.length = bs.dropLast.length + 1 := by
    conv_lhs => rw [← hbs]
    simp
  have h1 : 1 ≤ (bs.getLast hne).instances :=
    (hwf _ (List.getLast_mem hne)).2.2.1
  have h2 : (bs.getLast hne).instances ≤ MAX_SPRITES_PER_BATCH :=
    (hwf _ (List.getLast_mem hne)).2.2.2
  rw [hcount, hsum, hlen]
  simp only [ceilDiv, MAX_SPRITES_PER_BATCH] at h1 h2 ⊢
  omega

theorem renderBatches_entry {sprites : List Sprite} {b : Batch}
    (hb : b ∈ renderBatches sprites) :
    ∃ p ∈ buildBatchMap sprites, b ∈ p.2 := by
  rw [renderBatches] at hb
  obtain ⟨l, hl, hbl⟩ := List.mem_flatten.mp hb
  obtain ⟨p, hp, rfl⟩ := List.mem_map.mp hl
  exact ⟨p, hp, hbl⟩

theorem renderBatches_texture {sprites : List Sprite} {b : Batch}
    (hb : b ∈ renderBatches sprites) : ∃ s ∈ sprites, s.texture = b.texture := by
  obtain ⟨p, hp, hbp⟩ := renderBatches_entry hb
  obtain ⟨hkeys, hgroups⟩ := buildBatchMap_inv sprites
  have hbt : b.texture = p.1 := ((hgroups p hp).2.1 b hbp).1
  have hp1 : p.1 ∈ distinctTextures sprites := by
    rw [← hkeys]
    exact List.mem_map_of_mem Prod.fst hp
  obtain ⟨s, hs, hst⟩ := mem_distinctTextures.mp hp1
  exact ⟨s, hs, by rw [hst, hbt]⟩

theorem drawLoop_all_ok {cache : List Texture} {batches : List Batch}
    (h : ∀ b ∈ batches, b.texture ∈ cache) :
    drawLoop cache batches =
      Except.ok (batches.map fun b =>
        { indexCount := 6 * b.instances, texture := b.texture }) := by
  induction batches with
  | nil => rfl
  | cons b bs ih =>
    have hb := h b (List.mem_cons_self b bs)
    have hrest := ih (fun x hx => h x (List.mem_cons_of_mem b hx))
    simp only [drawLoop, drawBatch, if_pos hb, hrest, List.map_cons]

theorem renderBatches_length (sprites : List Sprite) :
    (renderBatches sprites).length =
      ((distinctTextures sprites).map
        (fun t => ceilDiv (textureCount sprites t) MAX_SPRITES_PER_BATCH)).sum := by
  obtain ⟨hkeys, hgroups⟩ := buildBatchMap_inv sprites
  rw [renderBatches, List.length_flatten, List.map_map, ← hkeys, List.map_map]
  congr 1
  refine List.map_congr_left ?_
  intro p hp
  exact groupOk_length (hgroups p hp)

/-- **C1.** For every input sprite list, the render pass issues exactly one
indexed draw call per batch with an index count of `6 * instances` (the draw
loop returns exactly one `DrawCall` per batch, in order), and the total number
of batches — hence draw calls — equals the sum, over the distinct textures of
the list, of `ceil(count_for_texture / MAX_SPRITES_PER_BATCH)`. -/
theorem draw_call_count (cache : List Texture) (sprites : List Sprite) :
    drawLoop (registerSprites cache sprites) (renderBatches sprites) =
      Except.ok ((renderBatches sprites).map
        (fun b => { indexCount := 6 * b.instances, texture := b.texture })) ∧
    (renderBatches sprites).length =
      ((distinctTextures sprites).map
        (fun t => ceilDiv (textureCount sprites t) MAX_SPRITES_PER_BATCH)).sum := by
  constructor
  · refine drawLoop_all_ok ?_
    intro b hb
    obtain ⟨s, hs, hst⟩ := renderBatches_texture hb
    exact mem_registerSprites.mpr (Or.inr ⟨s, hs, hst⟩)
  · exact renderBatches_length sprites

/-! ## Ordering claims -/

/-- **C2.** For every input sprite list and every texture, the concatenation of
that texture's batches (each batch filled slot by slot in write order —
`instances` counts the filled slots) contains exactly the sprites of that
texture in their input order: the batcher is a stable partition per texture. -/
theorem per_texture_order (sprites : List Sprite) (t : Texture) :
    (((getTexture (buildBatchMap sprites) t).getD []).map Batch.sprites).flatten =
      sprites.filter (fun s => decide (s.texture = t)) ∧
    ∀ b ∈ renderBatches sprites, b.instances = b.sprites.length := by
  obtain ⟨hkeys, hgroups⟩ := buildBatchMap_inv sprites
  constructor
  · rcases hget : getTexture (buildBatchMap sprites) t with _ | bs
    · have hnot : t ∉ (buildBatchMap sprites).map Prod.fst :=
        getTexture_eq_none.mp hget
      rw [hkeys] at hnot
      have hfilter : sprites.filter (fun s => decide (s.texture = t)) = [] := by
        rw [List.filter_eq_nil_iff]
        intro x hx hxt
        refine hnot (mem_distinctTextures.mpr ⟨x, hx, ?_⟩)
        simpa using hxt
      simp [hfilter]
    · have hmem := getTexture_mem hget
      simpa using (hgroups _ hmem).2.2.2
  · intro b hb
    obtain ⟨p, hp, hbp⟩ := renderBatches_entry hb
    exact ((hgroups p hp).2.1 b hbp).2.1

/-- **C3.** Batches are drawn grouped by texture in first-encounter order of the
distinct textures, not in global input order; in particular, for the
interleaved input `[sprA1, sprB, sprA2]` (textures A, B, A) all texture-A
sprites are drawn before the texture-B sprite. -/
theorem first_encounter_order :
    (∀ sprites : List Sprite,
      (buildBatchMap sprites).map Prod.fst = distinctTextures sprites ∧
      (renderBatches sprites).map Batch.texture =
        ((distinctTextures sprites).map
          (fun t => List.replicate (numBatches sprites t) t)).flatten) ∧
    ((renderBatches [sprA1, sprB, sprA2]).map Batch.sprites).flatten =
      [sprA1, sprA2, sprB] := by
  constructor
  · intro sprites
    obtain ⟨hkeys, hgroups⟩ := buildBatchMap_inv sprites
    have hnd : ((buildBatchMap sprites).map Prod.fst).Nodup := by
      rw [hkeys]; exact nodup_distinctTextures sprites
    refine ⟨hkeys, ?_⟩
    rw [renderBatches, List.map_flatten, List.map_map, ← hkeys, List.map_map]
    congr 1
    refine List.map_congr_left ?_
    intro p hp
    simp only [Function.comp_apply]
    have hlen : numBatches sprites p.1 = p.2.length := by
      rw [numBatches, getTexture_of_mem_nodup hnd hp]
      rfl
    rw [hlen]
    refine List.eq_replicate_iff.mpr ⟨by simp, ?_⟩
    intro x hx
    obtain ⟨b, hb, rfl⟩ := List.mem_map.mp hx
    exact ((hgroups p hp).2.1 b hb).1
  · rfl

/-- **C10.** The `'Texture bind group not found!'` branch is unreachable: for
every prior cache state and every input sprite list, every batch records a
texture registered in the (append-only) bind-group cache during the batching
loop, so the draw-loop lookup always succeeds. -/
theorem bind_group_lookup_total (cache : List Texture) (sprites : List Sprite) :
    ∃ calls, drawLoop (registerSprites cache sprites) (renderBatches sprites) =
      Except.ok calls := by
  refine ⟨_, drawLoop_all_ok ?_⟩
  intro b hb
  obtain ⟨s, hs, hst⟩ := renderBatches_texture hb
  exact mem_registerSprites.mpr (Or.inr ⟨s, hs, hst⟩)

/-! ## Vertex writer claims -/

/-- **C4.** For every sprite with `rotation = 0` the vertex writer emits its 4
vertices in the fixed order top left, top right, bottom right, bottom left,
with positions exactly `(x, y)`, `(x+width, y)`, `(x+width, y+height)`,
`(x, y+height)`; no rotation transform is applied. -/
theorem unrotated_vertices (s : Sprite) (h : s.rotation = 0) :
    spriteCorners s =
      { topLeft := (s.x, s.y), topRight := (s.x + s.width, s.y),
        bottomRight := (s.x + s.width, s.y + s.height),
        bottomLeft := (s.x, s.y + s.height) } ∧
    spriteVertices s =
      [s.x, s.y, (spriteU s).1, (spriteV s).1,
         s.color.1, s.color.2.1, s.color.2.2, s.alpha,
       s.x + s.width, s.y, (spriteU s).2, (spriteV s).1,
         s.color.1, s.color.2.1, s.color.2.2, s.alpha,
       s.x + s.width, s.y + s.height, (spriteU s).2, (spriteV s).2,
         s.color.1, s.color.2.1, s.color.2.2, s.alpha,
       s.x, s.y + s.height, (spriteU s).1, (spriteV s).2,
         s.color.1, s.color.2.1, s.color.2.2, s.alpha] := by
  have hc : spriteCorners s =
      { topLeft := (s.x, s.y), topRight := (s.x + s.width, s.y),
        bottomRight := (s.x + s.width, s.y + s.height),
        bottomLeft := (s.x, s.y + s.height) } := by
    rw [spriteCorners]
    simp [h]
  refine ⟨hc, ?_⟩
  rw [spriteVertices, hc]

/-- Witness for C4 at a concrete sprite: position `(1,2)`, size `3×4`,
full-frame UVs `[0,1]×[0,1]`, white color, alpha 1. -/
theorem unrotated_vertices_witness :
    spriteVertices exFlat =
      [1, 2, 0, 0, 1, 1, 1, 1,
       4, 2, 1, 0, 1, 1, 1, 1,
       4, 6, 1, 1, 1, 1, 1, 1,
       1, 6, 0, 1, 1, 1, 1, 1] := by
  have h := (unrotated_vertices exFlat rfl).2
  rw [h]
  norm_num [exFlat, texA, spriteU, spriteV]

/-- **C5.** For every sprite with non-zero rotation, all 4 corner positions are
the unrotated corners rotated by `rotation` radians about the pivot
`(x + origin[0]*width, y + origin[1]*height)`; and for `rotation = π` with
origin `(1/2, 1/2)` the emitted corners are the point reflection of the
unrotated corners through the rectangle's center. -/
theorem rotated_corners (s : Sprite) :
    (s.rotation ≠ 0 →
      spriteCorners s =
        { topLeft := rotate (s.x, s.y)
            (s.x + s.origin.1 * s.width, s.y + s.origin.2 * s.height) s.rotation,
          topRight := rotate (s.x + s.width, s.y)
            (s.x + s.origin.1 * s.width, s.y + s.origin.2 * s.height) s.rotation,
          bottomRight := rotate (s.x + s.width, s.y + s.height)
            (s.x + s.origin.1 * s.width, s.y + s.origin.2 * s.height) s.rotation,
          bottomLeft := rotate (s.x, s.y + s.height)
            (s.x + s.origin.1 * s.width, s.y + s.origin.2 * s.height) s.rotation }) ∧
    (s.rotation = Real.pi → s.origin = (1 / 2, 1 / 2) →
      spriteCorners s =
        { topLeft := (s.x + s.width, s.y + s.height),
          topRight := (s.x, s.y + s.height),
          bottomRight := (s.x, s.y),
          bottomLeft := (s.x + s.width, s.y) }) := by
  constructor
  · intro h
    rw [spriteCorners]
    simp only [if_neg h]
  · intro hrot horig
    have hne : s.rotation ≠ 0 := by rw [hrot]; exact Real.pi_ne_zero
    rw [spriteCorners]
    simp only [if_neg hne]
    rw [hrot, horig]
    simp only [rotate, Real.cos_pi, Real.sin_pi, Corners.mk.injEq, Prod.mk.injEq]
    refine ⟨⟨?_, ?_⟩, ⟨?_, ?_⟩, ⟨?_, ?_⟩, ⟨?_, ?_⟩⟩ <;> ring

/-- Witness for C5: `exFlat` rotated by `π` about its center `(5/2, 4)`;
the emitted corners are the reflected rectangle corners. -/
theorem rotated_corners_witness :
    spriteCorners exRot =
      { topLeft := (4, 6), topRight := (1, 6),
        bottomRight := (1, 2), bottomLeft := (4, 2) } := by
  have h := (rotated_corners exRot).2 rfl rfl
  rw [h]
  norm_num [exRot]

/-- **C6.** For every sprite the emitted texture coordinates are
`u = [frame.x/texture.width, (frame.x+frame.width)/texture.width]` and
`v = [frame.y/texture.height, (frame.y+frame.height)/texture.height]`,
assigned so the top-left vertex gets `(u[0], v[0])` and the bottom-right
vertex gets `(u[1], v[1])`; and a frame equal to the full texture bounds
yields UVs exactly `[0,1]×[0,1]`. -/
theorem uv_from_frame (s : Sprite) :
    spriteU s = (s.frame.x / (s.texture.width : ℝ),
      (s.frame.x + s.frame.width) / (s.texture.width : ℝ)) ∧
    spriteV s = (s.frame.y / (s.texture.height : ℝ),
      (s.frame.y + s.frame.height) / (s.texture.height : ℝ)) ∧
    (spriteVertices s)[2]? = some (spriteU s).1 ∧
    (spriteVertices s)[3]? = some (spriteV s).1 ∧
    (spriteVertices s)[18]? = some (spriteU s).2 ∧
    (spriteVertices s)[19]? = some (spriteV s).2 ∧
    (s.frame.x = 0 → s.frame.y = 0 →
     s.frame.width = (s.texture.width : ℝ) →
     s.frame.height = (s.texture.height : ℝ) →
     (0 : ℚ) < s.texture.width → (0 : ℚ) < s.texture.height →
     spriteU s = (0, 1) ∧ spriteV s = (0, 1)) := by
  refine ⟨rfl, rfl, rfl, rfl, rfl, rfl, ?_⟩
  · intro hx hy hw hh htw hth
    have htw' : (s.texture.width : ℝ) ≠ 0 := ne_of_gt (by exact_mod_cast htw)
    have hth' : (s.texture.height : ℝ) ≠ 0 := ne_of_gt (by exact_mod_cast hth)
    constructor
    · rw [spriteU, hx, hw]
      simp [div_self htw']
    · rw [spriteV, hy, hh]
      simp [div_self hth']

/-- Witness for C6: `exFlat`'s frame is the full 16×16 texture, so its UVs are
exactly `[0,1]×[0,1]`. -/
theorem uv_from_frame_witness :
    spriteU exFlat = (0, 1) ∧ spriteV exFlat = (0, 1) := by
  refine (uv_from_frame exFlat).2.2.2.2.2.2 rfl rfl ?_ ?_ ?_ ?_
  · norm_num [exFlat, texA]
  · norm_num [exFlat, texA]
  · norm_num [exFlat, texA]
  · norm_num [exFlat, texA]

/-! ## Bind-group cache across invocations -/

theorem renderFrame_cache (st : PipelineState) (sprites : List Sprite) :
    (renderFrame st sprites).textureBindGroups =
      registerSprites st.textureBindGroups sprites := by
  simp only [renderFrame, batchLoop_eq]

theorem foldl_renderFrame_cache (frames : List (List Sprite)) (st : PipelineState) :
    (frames.foldl renderFrame st).textureBindGroups =
      registerSprites st.textureBindGroups frames.flatten := by
  induction frames generalizing st with
  | nil => simp [registerSprites]
  | cons f frames ih =>
    rw [List.foldl_cons, ih, renderFrame_cache, List.flatten_cons,
      registerSprites_append]

theorem registerSprites_of_subset {cache : List Texture} {l : List Sprite}
    (h : ∀ s ∈ l, s.texture ∈ cache) : registerSprites cache l = cache := by
  induction l with
  | nil => rfl
  | cons s l ih =>
    have hstep : registerSprites cache (s :: l) =
        registerSprites (registerTexture cache s.texture) l := rfl
    rw [hstep, registerTexture, if_pos (h s (List.mem_cons_self s l))]
    exact ih (fun x hx => h x (List.mem_cons_of_mem s hx))

/-- **C7.** Across every sequence of render-pass invocations, exactly one
texture bind-group is created per distinct texture: the cache after the
sequence is precisely the duplicate-free first-encounter list of all textures
of all frames, cache entries are only ever appended (never removed or
replaced), and repeating an invocation with the same sprites creates no new
bind-group. -/
theorem bind_group_created_once :
    (∀ frames : List (List Sprite),
      (frames.foldl renderFrame initState).textureBindGroups =
        distinctTextures frames.flatten) ∧
    (∀ sprites : List Sprite, (distinctTextures sprites).Nodup) ∧
    (∀ (st : PipelineState) (sprites : List Sprite),
      ∃ ts, (renderFrame st sprites).textureBindGroups =
        st.textureBindGroups ++ ts) ∧
    (∀ sprites : List Sprite,
      (renderFrame (renderFrame initState sprites) sprites).textureBindGroups =
        (renderFrame initState sprites).textureBindGroups) := by
  refine ⟨?_, nodup_distinctTextures, ?_, ?_⟩
  · intro frames
    rw [foldl_renderFrame_cache]
    rfl
  · intro st sprites
    rw [renderFrame_cache]
    exact registerSprites_isAppend _ _
  · intro sprites
    rw [renderFrame_cache, renderFrame_cache]
    refine registerSprites_of_subset ?_
    intro s hs
    exact mem_registerSprites.mpr (Or.inr ⟨s, hs, rfl⟩)

/-! ## Vertex-buffer pool across invocations -/

theorem foldl_acquire (batches : List Batch) (d : DrawState) :
    batches.foldl (fun d _ => acquireBuffer d) d =
      { pool := d.pool - batches.length,
        used := d.used + batches.length,
        allocated := d.allocated + (batches.length - d.pool) } := by
  induction batches generalizing d with
  | nil => simp
  | cons b bs ih =>
    rw [List.foldl_cons]
    by_cases hp : d.pool = 0
    · rw [show acquireBuffer d =
          { pool := 0, used := d.used + 1, allocated := d.allocated + 1 } from
          by rw [acquireBuffer, if_pos hp]]
      rw [ih]
      simp only [DrawState.mk.injEq, List.length_cons]
      refine ⟨by omega, by omega, by omega⟩
    · rw [show acquireBuffer d =
          { pool := d.pool - 1, used := d.used + 1, allocated := d.allocated } from
          by rw [acquireBuffer, if_neg hp]]
      rw [ih]
      simp only [DrawState.mk.injEq, List.length_cons]
      refine ⟨by omega, by omega, by omega⟩

theorem renderFrame_eq (st : PipelineState) (sprites : List Sprite) :
    renderFrame st sprites =
      { vertexBuffers :=
          st.vertexBuffers - (renderBatches sprites).length +
            (renderBatches sprites).length,
        buffersAllocated := st.buffersAllocated +
          ((renderBatches sprites).length - st.vertexBuffers),
        textureBindGroups := registerSprites st.textureBindGroups sprites } := by
  have hB : ((buildBatchMap sprites).map Prod.snd).flatten = renderBatches sprites :=
    rfl
  simp only [renderFrame, batchLoop_eq, hB, foldl_acquire, Nat.zero_add]

theorem runFrames_stable (sprites : List Sprite) (N : ℕ) (h : 1 ≤ N) :
    (runFrames sprites N).vertexBuffers = max 1 (renderBatches sprites).length ∧
    (runFrames sprites N).buffersAllocated =
      max 1 (renderBatches sprites).length := by
  induction N with
  | zero => omega
  | succ n ih =>
    rcases Nat.eq_zero_or_pos n with rfl | hn
    · rw [show runFrames sprites 1 = renderFrame initState sprites from rfl,
        renderFrame_eq]
      constructor
      · show (1 : ℕ) - _ + _ = _
        omega
      · show (1 : ℕ) + _ = _
        simp only [initState]
        omega
    · obtain ⟨ih1, ih2⟩ := ih hn
      rw [show runFrames sprites (n + 1) =
          renderFrame (runFrames sprites n) sprites from rfl, renderFrame_eq]
      constructor
      · show (runFrames sprites n).vertexBuffers - _ + _ = _
        omega
      · show (runFrames sprites n).buffersAllocated + _ = _
        omega

/-- Counterexample to **C8** as stated: rendering the empty sprite list (0
batches per frame) never frees the construction-time buffer, so the total
number of vertex buffers ever allocated stabilizes at 1, not at the peak batch
count 0. -/
theorem pool_alloc_counterexample :
    (renderBatches ([] : List Sprite)).length = 0 ∧
    (runFrames [] 1).buffersAllocated = 1 ∧
    (runFrames [] 2).buffersAllocated = 1 ∧
    (1 : ℕ) ≠ 0 := by
  exact ⟨rfl, rfl, rfl, by norm_num⟩

/-- **C8 (amended).** The pool size never decreases across invocations; every
buffer popped during a frame is pushed back at its end, so the pool grows by
exactly the number of freshly allocated buffers; a buffer is allocated only
when the pool is empty; and after `N ≥ 1` frames over a fixed sprite list the
total number of buffers ever allocated stabilizes at `max 1 B` where `B` is
the per-frame batch count (the buffer pre-allocated at construction counts),
with no further allocation from frame 2 onward. -/
theorem pool_stabilizes :
    (∀ (st : PipelineState) (sprites : List Sprite),
      st.vertexBuffers ≤ (renderFrame st sprites).vertexBuffers) ∧
    (∀ (st : PipelineState) (sprites : List Sprite),
      (renderFrame st sprites).vertexBuffers =
        st.vertexBuffers +
          ((renderFrame st sprites).buffersAllocated - st.buffersAllocated)) ∧
    (∀ d : DrawState,
      (acquireBuffer d).allocated =
        if d.pool = 0 then d.allocated + 1 else d.allocated) ∧
    (∀ (sprites : List Sprite) (N : ℕ), 1 ≤ N →
      (runFrames sprites N).buffersAllocated =
        max 1 (renderBatches sprites).length ∧
      (runFrames sprites (N + 1)).buffersAllocated =
        (runFrames sprites N).buffersAllocated) := by
  refine ⟨?_, ?_, ?_, ?_⟩
  · intro st sprites
    rw [renderFrame_eq]
    show st.vertexBuffers ≤ st.vertexBuffers - _ + _
    omega
  · intro st sprites
    rw [renderFrame_eq]
    show st.vertexBuffers - _ + _ = st.vertexBuffers + (st.buffersAllocated + _ - _)
    omega
  · intro d
    by_cases hp : d.pool = 0
    · rw [acquireBuffer, if_pos hp, if_pos hp]
    · rw [acquireBuffer, if_neg hp, if_neg hp]
  · intro sprites N h
    refine ⟨(runFrames_stable sprites N h).2, ?_⟩
    rw [(runFrames_stable sprites (N + 1) (by omega)).2,
      (runFrames_stable sprites N h).2]

/-- Witness for the amended C8 at a concrete input: one sprite, one batch per
frame, one buffer ever allocated, frame 2 allocating nothing. -/
theorem pool_stabilizes_witness :
    1 ≤ 1 ∧
    ((runFrames [sprA1] 1).buffersAllocated =
        max 1 (renderBatches [sprA1]).length ∧
      (runFrames [sprA1] 2).buffersAllocated =
        (runFrames [sprA1] 1).buffersAllocated) :=
  ⟨by norm_num, pool_stabilizes.2.2.2 [sprA1] 1 (by norm_num)⟩
